import Mathlib

/-!
Verification development for the markdown-animator content-generation pipeline
(`src/components/MarkdownAnimator.tsx` and its sibling revisions).

The embedding translates the JavaScript/TypeScript source into executable Lean
definitions.  String-valued computations are carried out on `List Char`
(`String.data`) so that every definition reduces in the kernel; thin `String`
wrappers are provided where convenient.  JavaScript semantics that the source
relies on (`String.prototype.split`, `trim`, `startsWith`, regex matching,
`JSON.parse`, truthiness) are modelled explicitly below, each next to the
source construct it embeds.
-/

namespace DRA

/-- JavaScript whitespace (the `\s` class and the set trimmed by
`String.prototype.trim`): space, tab, LF, VT, FF, CR, NBSP and the Unicode
space separators / line separators / BOM. -/
def jsWhitespace (c : Char) : Bool :=
  c = ' ' || c = '\t' || c = '\n' || c = '\x0b' || c = '\x0c' || c = '\r' ||
  c.toNat = 0xA0 || c.toNat = 0x1680 ||
  (0x2000 ≤ c.toNat && c.toNat ≤ 0x200A) ||
  c.toNat = 0x2028 || c.toNat = 0x2029 || c.toNat = 0x202F ||
  c.toNat = 0x205F || c.toNat = 0x3000 || c.toNat = 0xFEFF

/-- JavaScript line terminators: the characters the regex `.` refuses to
match. -/
def lineTerm (c : Char) : Bool :=
  c = '\n' || c = '\r' || c.toNat = 0x2028 || c.toNat = 0x2029

/-- Model of JavaScript `String.prototype.trim` on character lists:
whitespace is removed from both ends. -/
def jsTrimChars (s : List Char) : List Char :=
  ((s.dropWhile jsWhitespace).reverse.dropWhile jsWhitespace).reverse

/-- Wrapper of `jsTrimChars` on `String` (models JS `s.trim()`). -/
def jsTrim (s : String) : String :=
  String.mk (jsTrimChars s.data)

/-- Helper for `splitOnNl`: `acc` holds the current piece reversed. -/
def splitOnNlAux (acc : List Char) : List Char → List (List Char)
  | [] => [acc.reverse]
  | c :: rest =>
      if c = '\n' then acc.reverse :: splitOnNlAux [] rest
      else splitOnNlAux (c :: acc) rest

/-- Model of JavaScript `s.split('\n')` (literal separator, keeps empty
pieces, yields `[""]` on the empty string). -/
def splitOnNl (s : List Char) : List (List Char) :=
  splitOnNlAux [] s

/-- Helper for `splitLines`: like `splitOnNlAux` but a `'\r'` immediately
before the `'\n'` belongs to the separator (`/\r?\n/`). -/
def splitLinesAux (acc : List Char) : List Char → List (List Char)
  | [] => [acc.reverse]
  | c :: rest =>
      if c = '\n' then
        (if acc.head? = some '\r' then acc.tail.reverse else acc.reverse) ::
          splitLinesAux [] rest
      else splitLinesAux (c :: acc) rest

/-- Model of JavaScript `markdown.split(/\r?\n/)` used by
`splitMarkdownIntoSections`. -/
def splitLines (s : String) : List (List Char) :=
  splitLinesAux [] s.data

/-- Decides whether `p` is a prefix of `s`. -/
def isPrefixC : List Char → List Char → Bool
  | [], _ => true
  | _ :: _, [] => false
  | p :: ps, c :: cs => p == c && isPrefixC ps cs

/-- Decides whether `pat` occurs as a contiguous
substring of `s` (models JS `s.includes(pat)`). -/
def containsSub : List Char → List Char → Bool
  | [], pat => pat.isEmpty
  | c :: rest, pat => isPrefixC pat (c :: rest) || containsSub rest pat

/-- Wrapper of `containsSub` on `String` (models JS `s.includes(pat)`). -/
def includesS (s pat : String) : Bool :=
  containsSub s.data pat.data

/-- Model of JS `String.prototype.toLowerCase` (ASCII letters; the source
only tests ASCII keywords). -/
def jsLower (s : String) : String :=
  String.mk (s.data.map Char.toLower)

/-! ### JSON values and `JSON.parse`

The stream decoder in `generateMermaidDiagram` calls `JSON.parse` on the
remainder of each `0:`-prefixed line.  We embed a JSON value type and a
fuel-indexed recursive-descent parser implementing the JSON grammar that
`JSON.parse` accepts (numbers are kept as their lexeme). -/

/-- JSON values.  Numbers keep their source lexeme. -/
inductive Json where
  | null : Json
  | bool (b : Bool) : Json
  | num (lexeme : String) : Json
  | str (s : String) : Json
  | arr (elems : List Json) : Json
  | obj (fields : List (String × Json)) : Json

/-- JSON whitespace accepted between tokens by `JSON.parse`. -/
def jsonWs (c : Char) : Bool :=
  c = ' ' || c = '\t' || c = '\n' || c = '\r'

/-- Skip JSON inter-token whitespace. -/
def skipWs (s : List Char) : List Char :=
  s.dropWhile jsonWs

/-- Numeric value of one hexadecimal digit, when the character is one. -/
def hexVal (c : Char) : Option Nat :=
  let n := c.toNat
  if 0x30 ≤ n ∧ n ≤ 0x39 then some (n - 0x30)
  else if 0x61 ≤ n ∧ n ≤ 0x66 then some (n - 0x61 + 10)
  else if 0x41 ≤ n ∧ n ≤ 0x46 then some (n - 0x41 + 10)
  else none

/-- Parse the inside of a JSON string literal (the opening quote already
consumed); returns the decoded characters and the input after the closing
quote.  Control characters are rejected, escapes are decoded. -/
def parseStrAux : List Char → Option (List Char × List Char)
  | [] => none
  | c :: rest =>
      if c = '"' then some ([], rest)
      else if c = '\\' then
        match rest with
        | [] => none
        | e :: rest2 =>
            if e = '"' then (parseStrAux rest2).map (fun p => ('"' :: p.1, p.2))
            else if e = '\\' then (parseStrAux rest2).map (fun p => ('\\' :: p.1, p.2))
            else if e = '/' then (parseStrAux rest2).map (fun p => ('/' :: p.1, p.2))
            else if e = 'b' then (parseStrAux rest2).map (fun p => ('\x08' :: p.1, p.2))
            else if e = 'f' then (parseStrAux rest2).map (fun p => ('\x0c' :: p.1, p.2))
            else if e = 'n' then (parseStrAux rest2).map (fun p => ('\n' :: p.1, p.2))
            else if e = 'r' then (parseStrAux rest2).map (fun p => ('\r' :: p.1, p.2))
            else if e = 't' then (parseStrAux rest2).map (fun p => ('\t' :: p.1, p.2))
            else if e = 'u' then
              match rest2 with
              | h1 :: h2 :: h3 :: h4 :: rest3 =>
                  match hexVal h1, hexVal h2, hexVal h3, hexVal h4 with
                  | some v1, some v2, some v3, some v4 =>
                      (parseStrAux rest3).map (fun p =>
                        (Char.ofNat (v1 * 0x1000 + v2 * 0x100 + v3 * 0x10 + v4) :: p.1, p.2))
                  | _, _, _, _ => none
              | _ => none
            else none
      else if c.toNat < 32 then none
      else (parseStrAux rest).map (fun p => (c :: p.1, p.2))

/-- Decimal digit. -/
def isDigit (c : Char) : Bool :=
  0x30 ≤ c.toNat && c.toNat ≤ 0x39

/-- Nonzero decimal digit. -/
def isDigit19 (c : Char) : Bool :=
  0x31 ≤ c.toNat && c.toNat ≤ 0x39

/-- Parse a JSON number per the JSON grammar
`-? (0 | [1-9][0-9]*) (.[0-9]+)? ([eE][+-]?[0-9]+)?`; returns the lexeme and
the remaining input. -/
def parseNumber (s : List Char) : Option (List Char × List Char) :=
  let (sign, s1) :=
    match s with
    | '-' :: t => (['-'], t)
    | _ => (([] : List Char), s)
  match s1 with
  | [] => none
  | c :: t =>
      if c = '0' then
        parseNumberFracExp (sign ++ [c]) t
      else if isDigit19 c then
        parseNumberFracExp (sign ++ c :: t.takeWhile isDigit) (t.dropWhile isDigit)
      else none
where
  parseNumberFracExp (intPart : List Char) (s : List Char) :
      Option (List Char × List Char) :=
    let (fracPart, s2) :=
      match s with
      | '.' :: u =>
          if (u.takeWhile isDigit).isEmpty then (none, s)
          else (some ('.' :: u.takeWhile isDigit), u.dropWhile isDigit)
      | _ => (none, s)
    match fracPart, s2 with
    | none, '.' :: _ => none
    | fp, s2 =>
        let withFrac := intPart ++ fp.getD []
        match s2 with
        | e :: u =>
            if e = 'e' || e = 'E' then
              let (sgn, u2) :=
                match u with
                | '+' :: v => (['+'], v)
                | '-' :: v => (['-'], v)
                | _ => (([] : List Char), u)
              if (u2.takeWhile isDigit).isEmpty then none
              else some (withFrac ++ e :: sgn ++ u2.takeWhile isDigit,
                         u2.dropWhile isDigit)
            else some (withFrac, s2)
        | [] => some (withFrac, [])

/- Fuel-indexed JSON value parser (`parseValue`), array tail parser
(`parseArrRest`) and object tail parser (`parseObjRest`).  Each recursive
call spends one unit of fuel; `jsonParse` supplies enough fuel for any
input. -/
mutual

def parseValue : Nat → List Char → Option (Json × List Char)
  | 0, _ => none
  | fuel + 1, s =>
      match skipWs s with
      | 'n' :: 'u' :: 'l' :: 'l' :: rest => some (Json.null, rest)
      | 't' :: 'r' :: 'u' :: 'e' :: rest => some (Json.bool true, rest)
      | 'f' :: 'a' :: 'l' :: 's' :: 'e' :: rest => some (Json.bool false, rest)
      | '"' :: rest =>
          (parseStrAux rest).map (fun p => (Json.str (String.mk p.1), p.2))
      | '[' :: rest =>
          (match skipWs rest with
           | ']' :: rest2 => some (Json.arr [], rest2)
           | s2 =>
               match parseValue fuel s2 with
               | some (v, r) => parseArrRest fuel [v] r
               | none => none)
      | '{' :: rest =>
          (match skipWs rest with
           | '}' :: rest2 => some (Json.obj [], rest2)
           | '"' :: rest2 =>
               (match parseStrAux rest2 with
                | some (key, r) =>
                    (match skipWs r with
                     | ':' :: r2 =>
                         (match parseValue fuel r2 with
                          | some (v, r3) =>
                              parseObjRest fuel [(String.mk key, v)] r3
                          | none => none)
                     | _ => none)
                | none => none)
           | _ => none)
      | s2 => (parseNumber s2).map (fun p => (Json.num (String.mk p.1), p.2))

def parseArrRest : Nat → List Json → List Char → Option (Json × List Char)
  | 0, _, _ => none
  | fuel + 1, acc, s =>
      match skipWs s with
      | ']' :: rest => some (Json.arr acc.reverse, rest)
      | ',' :: rest =>
          (match parseValue fuel rest with
           | some (v, r) => parseArrRest fuel (v :: acc) r
           | none => none)
      | _ => none

def parseObjRest : Nat → List (String × Json) → List Char →
    Option (Json × List Char)
  | 0, _, _ => none
  | fuel + 1, acc, s =>
      match skipWs s with
      | '}' :: rest => some (Json.obj acc.reverse, rest)
      | ',' :: rest =>
          (match skipWs rest with
           | '"' :: rest2 =>
               (match parseStrAux rest2 with
                | some (key, r) =>
                    (match skipWs r with
                     | ':' :: r2 =>
                         (match parseValue fuel r2 with
                          | some (v, r3) =>
                              parseObjRest fuel ((String.mk key, v) :: acc) r3
                          | none => none)
                     | _ => none)
                | none => none)
           | _ => none)
      | _ => none

end

/-- Model of JavaScript `JSON.parse`: parse one value, allow surrounding
whitespace, reject trailing input.  `none` models a thrown `SyntaxError`. -/
def jsonParse (s : List Char) : Option Json :=
  match parseValue (2 * s.length + 8) s with
  | some (v, rest) => if (skipWs rest).isEmpty then some v else none
  | none => none

/-- Property access `data.f` as used by the decoder (`data.type`,
`data.textDelta`): defined for objects (last duplicate key wins, as in
`JSON.parse`), `none` models `undefined`. -/
def getField (j : Json) (key : String) : Option Json :=
  match j with
  | Json.obj fields =>
      fields.foldl (fun acc kv => if kv.1 = key then some kv.2 else acc) none
  | _ => none

/-- JavaScript truthiness of a JSON value (`if (data.textDelta)`).
A number is falsy exactly when its mantissa digits are all zero. -/
def jsTruthy : Json → Bool
  | Json.null => false
  | Json.bool b => b
  | Json.str s => !s.isEmpty
  | Json.num lexeme =>
      ((lexeme.data.takeWhile (fun c => c ≠ 'e' && c ≠ 'E')).filter isDigit19) ≠ []
  | Json.arr _ => true
  | Json.obj _ => true

/-- String coercion used by `result += data.textDelta`.  Exact for strings
(the only case the wire format produces); numbers keep their lexeme and
container values are approximated. -/
def jsToStr : Json → String
  | Json.str s => s
  | Json.num lexeme => lexeme
  | Json.bool b => if b then "true" else "false"
  | Json.null => "null"
  | Json.arr _ => ""
  | Json.obj _ => "[object Object]"

/-! ### Stream Decoder
(`generateMermaidDiagram`, `src/components/MarkdownAnimator.tsx`, streamed
revision, lines 450-479; identical loop in `handleChatSubmit`.)

```js
const chunk = decoder.decode(value);
const lines = chunk.split('\n');
for (const line of lines) {
  if (line.startsWith('0:')) {
    try {
      const data = JSON.parse(line.slice(2));
      if (data.type === 'text-delta' && data.textDelta) {
        mermaidCode += data.textDelta;
      }
    } catch (e) { /* Skip invalid JSON lines */ }
  }
}
```
-/

/-- The delta extracted from the remainder of one `0:`-prefixed line, if
any: `JSON.parse` must succeed, `data.type === 'text-delta'` must hold and
`data.textDelta` must be truthy. -/
def extractDelta (rest : List Char) : Option (List Char) :=
  match jsonParse rest with
  | none => none
  | some data =>
      match getField data "type" with
      | some (Json.str t) =>
          if t = "text-delta" then
            match getField data "textDelta" with
            | some v => if jsTruthy v then some (jsToStr v).data else none
            | none => none
          else none
      | _ => none

/-- Process one line of a chunk: `0:`-prefixed lines append their extracted
delta to the accumulator, every other line leaves it unchanged. -/
def processLine (acc line : List Char) : List Char :=
  match line with
  | c1 :: c2 :: rest =>
      if c1 = '0' ∧ c2 = ':' then
        match extractDelta rest with
        | some d => acc ++ d
        | none => acc
      else acc
  | _ => acc

/-- Process one transport chunk: split it on `'\n'` and fold the lines.
Note that the chunk is split independently of every other chunk — the loop
keeps no cross-chunk line buffer. -/
def processChunk (acc chunk : List Char) : List Char :=
  (splitOnNl chunk).foldl processLine acc

/-- The decoded payload of a whole stream: fold `processChunk` over the
chunks in arrival order (the `while (true) { ... reader.read() ... }`
loop). -/
def decodeStream (chunks : List String) : String :=
  String.mk (chunks.foldl (fun acc c => processChunk acc c.data) [])

/-! ### Post-processing of the decoded payload

```js
mermaidCode = mermaidCode.replace(/```mermaid\n?/g, '').replace(/```\n?/g, '').trim();
```
-/

/-- Drop one leading `'\n'`, if present (the `\n?` tail of the fence
regexes). -/
def dropNl (s : List Char) : List Char :=
  if s.head? = some '\n' then s.tail else s

/-- Fuel-indexed model of `String.prototype.replace(/pat\n?/g, '')` for a
literal `pat`: scan left to right; at a match, drop the pattern and one
optional following newline and continue after it; otherwise keep the
character.  `fuel ≥ s.length` always suffices. -/
def replaceFenceAux (pat : List Char) : Nat → List Char → List Char
  | _, [] => []
  | 0, s => s
  | fuel + 1, c :: rest =>
      if isPrefixC pat (c :: rest) then
        replaceFenceAux pat fuel (dropNl ((c :: rest).drop pat.length))
      else c :: replaceFenceAux pat fuel rest

/-- Model of the global fence replacement with enough fuel. -/
def replaceFence (pat s : List Char) : List Char :=
  replaceFenceAux pat s.length s

/-- The ```` ```mermaid ```` fence marker. -/
def fenceMermaid : List Char := "```mermaid".data

/-- The bare ```` ``` ```` fence marker. -/
def fenceTicks : List Char := "```".data

/-- The decoder post-processing applied to the final payload. -/
def cleanupMermaid (s : String) : String :=
  String.mk (jsTrimChars (replaceFence fenceTicks (replaceFence fenceMermaid s.data)))

/-! ### Sectionizer (`splitMarkdownIntoSections`)

```js
function splitMarkdownIntoSections(markdown) {
  const lines = markdown.split(/\r?\n/);
  const sections = [];
  let current = null;
  const pushCurrent = () => {
    if (current) { sections.push(\x7b ...current, body: current.body.trim() \x7d); }
  };
  for (const line of lines) {
    const headingMatch = /^(#\x7b1,6\x7d)\s+(.+)$/.exec(line);
    if (headingMatch) {
      pushCurrent();
      current = \x7b id: `$\x7bsections.length\x7d-$\x7bDate.now()\x7d`, heading: headingMatch[2].trim(), body: "" \x7d;
    } else if (current) {
      current.body += line + "\n";
    } else {
      current = \x7b id: `$\x7bsections.length\x7d-$\x7bDate.now()\x7d`, heading: "Introduction", body: line + "\n" \x7d;
    }
  }
  pushCurrent();
  return sections;
}
```

The `id` field is `sections.length` paired with the wall clock `Date.now()`;
the clock value is passed in as the parameter `now`.
-/

/-- The `Section` record of the source (`code` is the user-pasted custom
content, `mermaidCode` the generated diagram markup). -/
structure Section where
  id : String
  heading : String
  body : String
  code : Option String
  mermaidCode : Option String
deriving DecidableEq

/-- The heading/body content of a section — the claims about the
Sectionizer compare sections "identifiers excepted". -/
def contentOf (s : Section) : String × String :=
  (s.heading, s.body)

/-- Length of the leading run of `'#'` characters. -/
def countHashes : List Char → Nat
  | [] => 0
  | c :: rest => if c = '#' then countHashes rest + 1 else 0

/-- Execution of `/^(#\x7b1,6\x7d)\s+(.+)$/.exec(line)`, returning capture
group 2 when the regex matches.  The regex is anchored on both sides, `\s`
is JavaScript whitespace, and `.` refuses line terminators; backtracking of
the greedy `\s+` is resolved as in the JS engine:

* `#\x7b1,6\x7d` can only match the full leading hash run (a 7th `#` is not
  whitespace), so 1-6 leading hashes are required;
* then at least one whitespace character;
* then `(.+)$`: if any non-whitespace remains it must be free of line
  terminators and is the capture; otherwise `\s+` gives one whitespace
  character back to `(.+)` (possible when the whitespace run has length at
  least 2 and its last character is not a line terminator). -/
def execHeadingMatch (line : List Char) : Option (List Char) :=
  let h := countHashes line
  if h = 0 || 6 < h then none
  else
    let r := line.drop h
    let w := r.takeWhile jsWhitespace
    let rest := r.dropWhile jsWhitespace
    if w.isEmpty then none
    else if rest.isEmpty then
      match w.getLast? with
      | some c => if lineTerm c || w.length < 2 then none else some [c]
      | none => none
    else if rest.any lineTerm then none
    else some rest

/-- Model of `pushCurrent`: flush the open section, trimming its body. -/
def pushCurrent (secs : List Section) (cur : Option Section) : List Section :=
  match cur with
  | some c => secs ++ [⟨c.id, c.heading, jsTrim c.body, c.code, c.mermaidCode⟩]
  | none => secs

/-- One iteration of the `for (const line of lines)` loop. -/
def processMdLine (now : Nat) (st : List Section × Option Section)
    (line : List Char) : List Section × Option Section :=
  match execHeadingMatch line with
  | some captured =>
      let secs := pushCurrent st.1 st.2
      (secs, some ⟨toString secs.length ++ "-" ++ toString now,
                   jsTrim (String.mk captured), "", none, none⟩)
  | none =>
      match st.2 with
      | some cur =>
          (st.1, some ⟨cur.id, cur.heading, cur.body ++ String.mk line ++ "\n",
                       cur.code, cur.mermaidCode⟩)
      | none =>
          (st.1, some ⟨toString st.1.length ++ "-" ++ toString now,
                       "Introduction", String.mk line ++ "\n", none, none⟩)

/-- The Sectionizer.  `now` stands for the `Date.now()` timestamp. -/
def splitMarkdownIntoSections (now : Nat) (markdown : String) : List Section :=
  let st := (splitLines markdown).foldl (processMdLine now) ([], none)
  pushCurrent st.1 st.2

/-- Reconstruction used by the idempotence claim: every returned section is
re-emitted as a heading line followed by its body
(`"# " + heading + "\n" + body + "\n"`), concatenated in order. -/
def renderSections (secs : List Section) : String :=
  String.join (secs.map (fun s => "# " ++ s.heading ++ "\n" ++ s.body ++ "\n"))

/-! ### Heuristic Content Synthesizer
(`generateMermaidDiagram` of the offline revision, `src/unnamed/part_000`
lines 250-369: keyword classification of the lower-cased body, sentence
extraction by `body.split(/[.!?]+/)`, keyword-to-label substitution,
truncation, diagram assembly and styling.) -/

/-- Sentence-terminal punctuation (`[.!?]`). -/
def sentencePunct (c : Char) : Bool :=
  c = '.' || c = '!' || c = '?'

/- `body.split(/[.!?]+/)`: a run of sentence punctuation is one separator. -/
mutual

def sentenceSplitAux (acc : List Char) : List Char → List (List Char)
  | [] => [acc.reverse]
  | c :: rest =>
      if sentencePunct c then acc.reverse :: sentenceSplitSkip rest
      else sentenceSplitAux (c :: acc) rest

def sentenceSplitSkip : List Char → List (List Char)
  | [] => [[]]
  | c :: rest =>
      if sentencePunct c then sentenceSplitSkip rest
      else sentenceSplitAux [c] rest

end

/-- Model of JS `body.split(/[.!?]+/)`. -/
def sentenceSplit (s : String) : List String :=
  (sentenceSplitAux [] s.data).map String.mk

/-- JS `s.length` (UTF-16 units; identical to the character count on the
basic plane, which is all the source's keywords use). -/
def jsLength (s : String) : Nat :=
  s.data.length

/-- JS `s.substring(0, n)`. -/
def jsSubstr (s : String) (n : Nat) : String :=
  String.mk (s.data.take n)

/-- Truncation used for sentences matching no keyword:
`clean.substring(0, n) + (clean.length > n ? '...' : '')`. -/
def truncLabel (clean : String) (n : Nat) : String :=
  jsSubstr clean n ++ (if n < jsLength clean then "..." else "")

/-- Workflow-branch keyword-to-label substitution. -/
def stepLabelWorkflow (clean : String) : String :=
  if includesS clean "first" || includesS clean "initially" then "Initial Setup"
  else if includesS clean "then" || includesS clean "next" then "Main Process"
  else if includesS clean "finally" || includesS clean "complete" then "Finalization"
  else if includesS clean "evaluate" || includesS clean "assess" then "Evaluation"
  else truncLabel clean 20

/-- Component-branch keyword-to-label substitution. -/
def partLabelComponent (clean : String) : String :=
  if includesS clean "hardware" then "Hardware"
  else if includesS clean "software" then "Software"
  else if includesS clean "interface" then "Interface"
  else if includesS clean "data" then "Data Layer"
  else if includesS clean "security" then "Security"
  else if includesS clean "performance" then "Performance"
  else truncLabel clean 15

/-- Comparison-branch keyword-to-label substitution. -/
def pointLabelCompare (clean : String) : String :=
  if includesS clean "advantage" || includesS clean "benefit" then "Advantages"
  else if includesS clean "disadvantage" || includesS clean "limitation" then "Limitations"
  else if includesS clean "difference" || includesS clean "contrast" then "Key Differences"
  else truncLabel clean 15

/-- Default-branch keyword-to-label substitution. -/
def conceptLabelDefault (clean : String) : String :=
  if includesS clean "important" || includesS clean "key" then "Key Points"
  else if includesS clean "benefit" || includesS clean "advantage" then "Benefits"
  else if includesS clean "challenge" || includesS clean "difficulty" then "Challenges"
  else if includesS clean "solution" || includesS clean "approach" then "Solutions"
  else if includesS clean "requirement" || includesS clean "need" then "Requirements"
  else if includesS clean "implementation" || includesS clean "deploy" then "Implementation"
  else truncLabel clean 20

/-- Model of the sentence filter: split the body on sentence punctuation
and keep only sentences whose trimmed length exceeds `minLen`. -/
def qualifyingSentences (body : String) (minLen : Nat) : List String :=
  (sentenceSplit body).filter (fun s => minLen < jsLength (jsTrim s))

/-- The workflow branch's step labels:
`sentences.slice(0, 4).map(s => \x7b const clean = s.trim(); ... \x7d)`. -/
def workflowSteps (body : String) : List String :=
  ((qualifyingSentences body 20).take 4).map (fun s => stepLabelWorkflow (jsTrim s))

/-- The component branch's part labels (`slice(0, 4)`, threshold 15). -/
def componentParts (body : String) : List String :=
  ((qualifyingSentences body 15).take 4).map (fun s => partLabelComponent (jsTrim s))

/-- The comparison branch's point labels (`slice(0, 3)`, threshold 15). -/
def comparePoints (body : String) : List String :=
  ((qualifyingSentences body 15).take 3).map (fun s => pointLabelCompare (jsTrim s))

/-- The default branch's concept labels (`slice(0, 3)`, threshold 20). -/
def defaultConcepts (body : String) : List String :=
  ((qualifyingSentences body 20).take 3).map (fun s => conceptLabelDefault (jsTrim s))

/-- The `forEach` loops appending one fan-out edge per item:
`summary += `\n    A --> B$\x7bindex + 1\x7d[$\x7bitem\x7d]``
(or `---` in the component branch). -/
def fanEdges (arrow : String) (items : List String) : String :=
  String.join (items.enum.map (fun p =>
    "\n    A " ++ arrow ++ " B" ++ toString (p.1 + 1) ++ "[" ++ p.2 ++ "]"))

/-- The `for (let i = 1; i <= n; i++)` style loops. -/
def styleBLines (n : Nat) (fill stroke : String) : String :=
  String.join ((List.range n).map (fun i =>
    "\n    style B" ++ toString (i + 1) ++ " fill:" ++ fill ++ ",stroke:" ++
      stroke ++ ",stroke-width:2px"))

/-- The styling block appended after the branch dispatch (note that its own
keyword conditions omit `step` and `architecture`). -/
def styleBlock (body : String) : String :=
  let content := jsLower body
  "\n    \n    style A fill:#e1f5fe,stroke:#0ea5e9,stroke-width:3px" ++
  (if includesS content "workflow" || includesS content "process" then
     "\n    style C fill:#c8e6c9,stroke:#22c55e,stroke-width:3px" ++
       styleBLines 4 "#fef3c7" "#f59e0b"
   else if includesS content "component" || includesS content "system" then
     styleBLines 4 "#ddd6fe" "#8b5cf6"
   else styleBLines 3 "#fef3c7" "#f59e0b")

/-- Does the lower-cased body contain `workflow`, `process` or `step`
(the workflow-branch dispatch condition)? -/
def isWorkflowBody (body : String) : Bool :=
  let content := jsLower body
  includesS content "workflow" || includesS content "process" ||
    includesS content "step"

/-- The Heuristic Content Synthesizer: classify the lower-cased body by
keyword, build the branch's diagram, then append the styling block. -/
def heuristicMermaid (heading body : String) : String :=
  let content := jsLower body
  let summary :=
    if includesS content "workflow" || includesS content "process" ||
        includesS content "step" then
      let steps := workflowSteps body
      "flowchart TD\n    A[" ++ heading ++ "]" ++ fanEdges "-->" steps ++
        "\n    B" ++ toString steps.length ++ " --> C[Complete]"
    else if includesS content "component" || includesS content "system" ||
        includesS content "architecture" then
      "graph TB\n    A[" ++ heading ++ "]" ++ fanEdges "---" (componentParts body)
    else if includesS content "compare" || includesS content "versus" ||
        includesS content "difference" then
      "graph LR\n    A[" ++ heading ++ "]" ++ fanEdges "-->" (comparePoints body)
    else
      "flowchart TD\n    A[" ++ heading ++ "]" ++ fanEdges "-->" (defaultConcepts body)
  summary ++ styleBlock body

/-! ### Preview Renderer (`UnifiedCanvas`, `src/components/MarkdownAnimator.tsx`
lines 199-258)

`srcDoc` is chosen by JavaScript truthiness: a *nonempty* `mermaidCode` is
embedded into the fixed Mermaid document template; otherwise a nonempty
`animationCode` is used verbatim; otherwise the fixed placeholder document is
produced.  The document is rendered in
`<iframe sandbox="allow-scripts allow-same-origin" srcDoc=\x7bsrcDoc\x7d>`. -/

/-- The fixed placeholder document (`defaultBlankSnippet`), embedded
verbatim from the source. -/
def defaultBlankSnippet : String :=
  "<!doctype html>\n<html>\n  <head>\n    <meta charset=\"utf-8\" />\n    <meta name=\"viewport\" content=\"width=device-width, initial-scale=1\" />\n    <style>\n      html, body \x7b margin: 0; padding: 0; height: 100%; \x7d\n      .center \x7b display: grid; place-items: center; height: 100%; font: 16px system-ui; \x7d\n    </style>\n  </head>\n  <body>\n    <div class=\"center\">Click the canvas to edit and paste your code.</div>\n    <script>\n      // You can paste your JS here. Include script tags to load libraries if needed.\n      // Example: simple animation without external libs\n      const el = document.querySelector(\x27.center\x27);\n      let t = 0;\n      setInterval(() => \x7b el.style.transform = \x27scale(\x27 + (1 + 0.05*Math.sin(t)) + \x27)\x27; t += 0.2; \x7d, 30);\n    </script>\n  </body>\n</html>"

/-- The fixed Mermaid document template with the diagram markup embedded at
its `$\x7bmermaidCode\x7d` hole, verbatim from the source. -/
def mermaidTemplate (mermaidCode : String) : String :=
  "<!doctype html>\n<html>\n  <head>\n    <meta charset=\"utf-8\" />\n    <meta name=\"viewport\" content=\"width=device-width, initial-scale=1\" />\n    <title>Mermaid Diagram</title>\n    <script src=\"https://cdn.jsdelivr.net/npm/mermaid@10.6.1/dist/mermaid.min.js\"></script>\n    <style>\n      * \x7b box-sizing: border-box; \x7d\n      html, body \x7b margin: 0; height: 100%; background: #f8fafc; font-family: system-ui, -apple-system, sans-serif; \x7d\n      .container \x7b padding: 20px; max-width: 100%; margin: 0 auto; \x7d\n      .mermaid \x7b text-align: center; \x7d\n    </style>\n  </head>\n  <body>\n    <div class=\"container\">\n      <div class=\"mermaid\">\n" ++ mermaidCode ++ "\n      </div>\n    </div>\n    <script>\n      mermaid.initialize(\x7b \n        startOnLoad: true,\n        theme: \x27default\x27,\n        flowchart: \x7b useMaxWidth: true, htmlLabels: true \x7d,\n        sequence: \x7b useMaxWidth: true \x7d,\n        class: \x7b useMaxWidth: true \x7d\n      \x7d);\n    </script>\n  </body>\n</html>"

/-- JavaScript truthiness of an optional string (`undefined` and `""` are
falsy). -/
def truthyS : Option String → Bool
  | none => false
  | some s => !s.data.isEmpty

/-- The `srcDoc` computation of `UnifiedCanvas`:
`if (mermaidCode) \x7b...template...\x7d else if (animationCode) \x7b animationCode \x7d else \x7b defaultBlankSnippet \x7d`. -/
def srcDoc (mermaidCode animationCode : Option String) : String :=
  if truthyS mermaidCode then mermaidTemplate (mermaidCode.getD "")
  else if truthyS animationCode then animationCode.getD ""
  else defaultBlankSnippet

/-- The `sandbox` attribute tokens set on every preview iframe
(`UnifiedCanvas`, `AnimationCanvas` and `MermaidCanvas` all use
`sandbox="allow-scripts allow-same-origin"`). -/
def previewSandboxTokens : List String :=
  ["allow-scripts", "allow-same-origin"]

/-- HTML `iframe sandbox` semantics: script execution is permitted exactly
when the `allow-scripts` keyword is present. -/
def sandboxPermitsScripts (tokens : List String) : Bool :=
  tokens.contains "allow-scripts"

/-- HTML `iframe sandbox` semantics for a `srcdoc` document (which inherits
the embedder origin): the embedded content is denied access to the hosting
page state exactly when `allow-same-origin` is absent — granting
`allow-same-origin` to a same-origin `srcdoc` document makes it
same-origin with the host, so host access is not denied. -/
def sandboxDeniesHostAccess (tokens : List String) : Bool :=
  !(tokens.contains "allow-same-origin")

/-! ### Generation Orchestrator state
(`MarkdownAnimator`, streamed revision: the `sections` and
`generatingMermaid` state hooks, the per-section trigger button
`disabled=\x7bgeneratingMermaid === s.id\x7d` (lines 521-527), and
`generateMermaidDiagram` (lines 424-490)). -/

/-- The component state: the section store and the single shared
"current generation" slot. -/
structure AppState where
  sections : List Section
  generatingMermaid : Option String
deriving DecidableEq

/-- Model of `sections.find(s => s.id === sectionId)`. -/
def findSection (sections : List Section) (sectionId : String) : Option Section :=
  sections.find? (fun s => s.id == sectionId)

/-- Triggering a generation for `sectionId` through the UI: the button is
disabled while `generatingMermaid === s.id`, so the click is a no-op for
the very section that is generating; otherwise `generateMermaidDiagram`
runs: it returns early when the section does not exist, and else sets the
shared slot to `sectionId` (`setGeneratingMermaid(sectionId)`) and starts
the request.  There is no check of the slot against *other* sections. -/
def triggerGenerateMermaid (st : AppState) (sectionId : String) : AppState :=
  if st.generatingMermaid == some sectionId then st
  else
    match findSection st.sections sectionId with
    | none => st
    | some _ => ⟨st.sections, some sectionId⟩

/-- Completion of a generation attempt: the decoded, fence-stripped result
is written to the section `mermaidCode` field and the `finally` block
clears the slot (`setGeneratingMermaid(null)`). -/
def completeGenerateMermaid (st : AppState) (sectionId : String)
    (result : String) : AppState :=
  ⟨st.sections.map (fun s =>
      if s.id == sectionId then ⟨s.id, s.heading, s.body, s.code, some result⟩
      else s),
   none⟩

/-! ## Helper lemmas -/

theorem isPrefixC_append_ext (p s t : List Char) (h : isPrefixC p s = true) :
    isPrefixC p (s ++ t) = true := by
  induction p generalizing s with
  | nil => rfl
  | cons a ps ih =>
      cases s with
      | nil => simp [isPrefixC] at h
      | cons c cs =>
          simp [isPrefixC] at h ⊢
          exact ⟨h.1, ih cs h.2⟩

theorem containsSub_append_r (a b pat : List Char)
    (h : containsSub b pat = true) : containsSub (a ++ b) pat = true := by
  induction a with
  | nil => simpa using h
  | cons c cs ih =>
      simp only [List.cons_append, containsSub, Bool.or_eq_true]
      exact Or.inr ih

theorem containsSub_append_l (a b pat : List Char)
    (h : containsSub a pat = true) : containsSub (a ++ b) pat = true := by
  induction a with
  | nil =>
      simp only [containsSub, List.isEmpty_iff] at h
      subst h
      cases b with
      | nil => rfl
      | cons c cs => simp [containsSub, isPrefixC]
  | cons c cs ih =>
      simp only [containsSub, Bool.or_eq_true] at h
      simp only [List.cons_append, containsSub, Bool.or_eq_true]
      rcases h with h | h
      · exact Or.inl (isPrefixC_append_ext _ _ _ h)
      · exact Or.inr (ih h)

theorem string_data_eq {a b : String} (h : a.data = b.data) : a = b := by
  cases a
  cases b
  exact congrArg String.mk h

/-! ## C1 — global mutual exclusion of generation -/

/-- C1, counterexample.  The claim "for every state in which a generation
for some section is in-flight, triggering a generation for any section (the
same or a different one) is rejected as a no-op" is false: in a state where
section `a` is in-flight, triggering section `b` is not a no-op — it
overwrites the shared slot with `b`. -/
theorem c1_counterexample :
    triggerGenerateMermaid
        ⟨[⟨"a", "A", "", none, none⟩, ⟨"b", "B", "", none, none⟩], some "a"⟩
        "b" ≠
      ⟨[⟨"a", "A", "", none, none⟩, ⟨"b", "B", "", none, none⟩], some "a"⟩ ∧
    (triggerGenerateMermaid
        ⟨[⟨"a", "A", "", none, none⟩, ⟨"b", "B", "", none, none⟩], some "a"⟩
        "b").generatingMermaid = some "b" := by
  decide

/-- C1, amended: mutual exclusion is only per-section.  While a generation
for section `sid` is in-flight, re-triggering `sid` itself is rejected as a
no-op (the trigger button is disabled); and a trigger never alters any
section's content fields (content is only written on completion).  A
trigger for a different section is *not* rejected (see the
counterexample). -/
theorem c1_per_section_exclusion :
    (∀ (st : AppState) (sid : String), st.generatingMermaid = some sid →
        triggerGenerateMermaid st sid = st) ∧
    (∀ (st : AppState) (sid : String),
        (triggerGenerateMermaid st sid).sections = st.sections) := by
  constructor
  · intro st sid h
    unfold triggerGenerateMermaid
    rw [h]
    simp
  · intro st sid
    unfold triggerGenerateMermaid
    split
    · rfl
    · cases findSection st.sections sid <;> rfl

/-- C1, witness for the amended theorem at a concrete state. -/
theorem c1_per_section_exclusion_witness :
    triggerGenerateMermaid ⟨[⟨"a", "A", "", none, none⟩], some "a"⟩ "a" =
      ⟨[⟨"a", "A", "", none, none⟩], some "a"⟩ :=
  c1_per_section_exclusion.1 ⟨[⟨"a", "A", "", none, none⟩], some "a"⟩ "a" rfl

/-! ## C3 — isolation of the preview document -/

/-- C3: the preview iframes carry
`sandbox="allow-scripts allow-same-origin"`.  Scripts are permitted, but
because `allow-same-origin` is granted to a same-origin `srcdoc` document,
access to the hosting page's state is *not* denied — the mandated isolation
boundary does not hold, for any embedded content. -/
theorem c3_sandbox_not_isolating :
    sandboxPermitsScripts previewSandboxTokens = true ∧
    sandboxDeniesHostAccess previewSandboxTokens = false := by
  decide

/-! ## C4 — segmenting the empty string -/

/-- C4, counterexample.  `segment("")` does not return an empty sequence:
`"".split(/\r?\n/)` is `[""]`, and that single empty line opens the
implicit "Introduction" section. -/
theorem c4_counterexample : splitMarkdownIntoSections 0 "" ≠ [] := by
  decide

/-- C4, amended: applying `segment` to the empty string returns exactly one
section, with heading `"Introduction"` and empty body (whatever the
`Date.now()` timestamp is). -/
theorem c4_amended (now : Nat) :
    (splitMarkdownIntoSections now "").map contentOf =
      [("Introduction", "")] := by
  show (pushCurrent ((splitLines "").foldl (processMdLine now) ([], none)).1
      ((splitLines "").foldl (processMdLine now) ([], none)).2).map contentOf = _
  have h1 : splitLines "" = [[]] := by decide
  rw [h1]
  simp only [List.foldl_cons, List.foldl_nil]
  have h2 : execHeadingMatch [] = none := by decide
  simp only [processMdLine, h2, pushCurrent, List.map, contentOf]
  have h3 : jsTrim (String.mk [] ++ "\n") = "" := by decide
  rw [h3]

/-! ## C7 — rendering precedence -/

set_option maxRecDepth 8000 in
/-- C7, counterexample.  "When both `generatedMarkup` and `customContent`
are present the constructed document embeds the diagram markup" is false:
with `mermaidCode` present but empty (`""` is falsy in JS) and custom
content present, the custom content is used; likewise a present-but-empty
custom content alone yields the placeholder rather than the verbatim
(empty) document. -/
theorem c7_counterexample :
    srcDoc (some "") (some "<p>hi</p>") = "<p>hi</p>" ∧
    srcDoc (some "") (some "<p>hi</p>") ≠ mermaidTemplate "" ∧
    srcDoc none (some "") = defaultBlankSnippet ∧
    defaultBlankSnippet ≠ "" := by
  refine ⟨rfl, by decide, rfl, by decide⟩

/-- C7, amended: precedence is decided by JavaScript truthiness.  A
*nonempty* diagram markup always wins (whatever the custom content is) and
is embedded in the fixed template; else a *nonempty* custom content is the
document verbatim; else the fixed placeholder is produced. -/
theorem c7_precedence :
    (∀ (m : String) (a : Option String), m ≠ "" →
        srcDoc (some m) a = mermaidTemplate m) ∧
    (∀ a : String, a ≠ "" → srcDoc none (some a) = a) ∧
    srcDoc none none = defaultBlankSnippet := by
  refine ⟨?_, ?_, rfl⟩
  · intro m a hm
    have hne : m.data.isEmpty = false := by
      cases hd : m.data with
      | nil => exact absurd (string_data_eq (by simp [hd])) hm
      | cons c cs => rfl
    simp [srcDoc, truthyS, hne]
  · intro a ha
    have hne : a.data.isEmpty = false := by
      cases hd : a.data with
      | nil => exact absurd (string_data_eq (by simp [hd])) ha
      | cons c cs => rfl
    simp [srcDoc, truthyS, hne]

/-- C7, witness for the amended theorem at concrete contents. -/
theorem c7_precedence_witness :
    srcDoc (some "graph TD") (some "<p>x</p>") = mermaidTemplate "graph TD" ∧
    srcDoc none (some "<p>x</p>") = "<p>x</p>" :=
  ⟨c7_precedence.1 "graph TD" (some "<p>x</p>") (by decide),
   c7_precedence.2.1 "<p>x</p>" (by decide)⟩

/-! ## C8 — malformed stream lines are dropped -/

/-- C8: a line that does not start with the `0:` marker, or whose remainder
fails to parse as JSON, contributes nothing to the decoded payload: the
accumulator is returned unchanged (and the decode as a whole is a total
function — nothing is thrown). -/
theorem c8_malformed_dropped (acc line : List Char)
    (h : isPrefixC "0:".data line = false ∨
         (jsonParse (line.drop 2)).isNone = true) :
    processLine acc line = acc := by
  rcases line with _ | ⟨c1, _ | ⟨c2, rest⟩⟩
  · rfl
  · rfl
  · simp only [processLine]
    by_cases hc : c1 = '0' ∧ c2 = ':'
    · obtain ⟨h0, h1⟩ := hc
      subst h0
      subst h1
      rcases h with h | h
      · simp [isPrefixC] at h
      · have hn : jsonParse rest = none := by
          simpa [Option.isNone_iff_eq_none] using h
        simp [extractDelta, hn]
    · rw [if_neg hc]

/-- C8, witness: a line with a different marker and a marker line with
invalid JSON both leave a concrete accumulator unchanged. -/
theorem c8_malformed_dropped_witness :
    processLine "abc".data "1:x".data = "abc".data ∧
    processLine "abc".data "0:notjson".data = "abc".data :=
  ⟨c8_malformed_dropped "abc".data "1:x".data (Or.inl (by decide)),
   c8_malformed_dropped "abc".data "0:notjson".data (Or.inr (by decide))⟩

/-! ## C10 — heading lines of hashes followed only by whitespace -/

/-- C10: the line `"#  "` (one `#`, two spaces) is treated as a heading
line — the regex's greedy `\s+` backtracks and lets `(.+)` capture the
final space — and the resulting section's trimmed heading is the empty
string, so `segment` does not guarantee nonempty headings. -/
theorem c10_empty_heading :
    "#  ".data = '#' :: [' ', ' '] ∧
    execHeadingMatch "#  ".data = some [' '] ∧
    (splitMarkdownIntoSections 0 "#  ").map contentOf = [("", "")] := by
  decide

theorem string_data_append (a b : String) : (a ++ b).data = a.data ++ b.data := by
  cases a
  cases b
  rfl

/-! ## C9 — heuristic synthesizer, workflow branch -/

/-- C9: for every section whose body contains `workflow` (or `process` /
`step`), case-insensitively, the synthesized output is the top-down flow
diagram `flowchart TD` rooted at a node labeled with the section heading,
fanning out to the at most 4 step labels derived from the body's
sentences, with the last step node feeding a terminal `C[Complete]` node,
followed by the styling block. -/
theorem c9_workflow_branch (h b : String) (hw : isWorkflowBody b = true) :
    (workflowSteps b).length ≤ 4 ∧
    heuristicMermaid h b =
      "flowchart TD\n    A[" ++ h ++ "]" ++ fanEdges "-->" (workflowSteps b) ++
        "\n    B" ++ toString (workflowSteps b).length ++ " --> C[Complete]" ++
        styleBlock b ∧
    containsSub (heuristicMermaid h b).data "C[Complete]".data = true := by
  have hw' : (includesS (jsLower b) "workflow" || includesS (jsLower b) "process" ||
      includesS (jsLower b) "step") = true := hw
  have hlen : (workflowSteps b).length ≤ 4 := by
    simp only [workflowSteps, List.length_map, List.length_take]
    exact Nat.min_le_left _ _
  have heq : heuristicMermaid h b =
      "flowchart TD\n    A[" ++ h ++ "]" ++ fanEdges "-->" (workflowSteps b) ++
        "\n    B" ++ toString (workflowSteps b).length ++ " --> C[Complete]" ++
        styleBlock b := by
    unfold heuristicMermaid
    simp only [hw', if_true]
  refine ⟨hlen, heq, ?_⟩
  rw [heq, string_data_append, string_data_append, List.append_assoc]
  apply containsSub_append_r
  apply containsSub_append_l
  decide

/-- C9, witness at a concrete heading and body. -/
theorem c9_workflow_branch_witness :
    isWorkflowBody "workflow" = true ∧
    ((workflowSteps "workflow").length ≤ 4 ∧
     heuristicMermaid "Plan" "workflow" =
       "flowchart TD\n    A[" ++ "Plan" ++ "]" ++
         fanEdges "-->" (workflowSteps "workflow") ++ "\n    B" ++
         toString (workflowSteps "workflow").length ++ " --> C[Complete]" ++
         styleBlock "workflow" ∧
     containsSub (heuristicMermaid "Plan" "workflow").data
       "C[Complete]".data = true) :=
  ⟨by decide, c9_workflow_branch "Plan" "workflow" (by decide)⟩

/-! ## C2 — chunk-boundary handling of the stream decoder -/

theorem processLine_append (acc line : List Char) :
    processLine acc line = acc ++ processLine [] line := by
  rcases line with _ | ⟨c1, _ | ⟨c2, rest⟩⟩
  · simp [processLine]
  · simp [processLine]
  · simp only [processLine]
    by_cases hc : c1 = '0' ∧ c2 = ':'
    · rw [if_pos hc, if_pos hc]
      cases extractDelta rest <;> simp
    · rw [if_neg hc, if_neg hc]
      simp

theorem foldl_processLine_append (ls : List (List Char)) (acc : List Char) :
    ls.foldl processLine acc = acc ++ ls.foldl processLine [] := by
  induction ls generalizing acc with
  | nil => simp
  | cons l rest ih =>
      simp only [List.foldl_cons]
      rw [ih (processLine acc l), ih (processLine [] l),
        processLine_append acc l, List.append_assoc]

theorem processChunk_append (acc chunk : List Char) :
    processChunk acc chunk = acc ++ processChunk [] chunk := by
  unfold processChunk
  exact foldl_processLine_append _ _

/-- C2, counterexample.  Feeding the spec's example — a `text-delta "Hi"`
line and a `text-delta " there"` line, split mid-line across two transport
chunks — yields `"Hi"`, not `"Hi there"`: the first chunk's trailing
fragment starts with the marker but fails `JSON.parse`, and the second
chunk's leading fragment lacks the marker, so both halves of the split
line are dropped. -/
theorem c2_counterexample :
    decodeStream
        ["0:\x7b\"type\":\"text-delta\",\"textDelta\":\"Hi\"\x7d\n0:\x7b\"type\":\"te",
         "xt-delta\",\"textDelta\":\" there\"\x7d\n"] = "Hi" ∧
    ("Hi" : String) ≠ "Hi there" := by
  constructor
  · decide
  · decide

theorem foldl_chunks_append (chunks : List String) (acc : List Char) :
    chunks.foldl (fun acc c => processChunk acc c.data) acc =
      acc ++ chunks.foldl (fun acc c => processChunk acc c.data) [] := by
  induction chunks generalizing acc with
  | nil => simp
  | cons c rest ih =>
      simp only [List.foldl_cons]
      rw [ih (processChunk acc c.data), ih (processChunk [] c.data),
        processChunk_append acc c.data, List.append_assoc]

/-- C2, amended: the decoder keeps no buffer across transport chunks — each
chunk is split on newlines and decoded independently, and the stream's
decoded payload is just the concatenation of the chunks' independent
decodings.  Deltas on lines split across a chunk boundary are lost (see the
counterexample), so the decoded result equals the concatenation of the
text-delta payloads of those lines that lie entirely inside one chunk. -/
theorem c2_no_cross_chunk_buffering (chunks : List String) :
    decodeStream chunks =
      String.mk ((chunks.map (fun c => processChunk [] c.data)).flatten) := by
  unfold decodeStream
  congr 1
  induction chunks with
  | nil => rfl
  | cons c rest ih =>
      simp only [List.foldl_cons, List.map_cons, List.flatten_cons]
      rw [foldl_chunks_append rest (processChunk [] c.data), ih]

/-! ## C6 — post-processing of fence markers -/

/-- The backtick character. -/
def btick : Char := Char.ofNat 0x60

/-- Length of the leading backtick run. -/
def leadTicks (s : List Char) : Nat :=
  (s.takeWhile (fun c => c = btick)).length

theorem fenceTicks_eq : fenceTicks = [btick, btick, btick] := by decide

theorem leadTicks_cons_ne (c : Char) (t : List Char) (h : ¬ c = btick) :
    leadTicks (c :: t) = 0 := by
  simp [leadTicks, List.takeWhile_cons, h]

theorem leadTicks_cons_b (t : List Char) :
    leadTicks (btick :: t) = leadTicks t + 1 := by
  simp [leadTicks, List.takeWhile_cons]

theorem isPrefixC_bb_false_of_lead (t : List Char) (h : leadTicks t ≤ 1) :
    isPrefixC [btick, btick] t = false := by
  cases t with
  | nil => rfl
  | cons c u =>
      by_cases hc : c = btick
      · subst hc
        rw [leadTicks_cons_b] at h
        cases u with
        | nil => simp [isPrefixC]
        | cons d v =>
            by_cases hd : d = btick
            · subst hd
              rw [leadTicks_cons_b] at h
              omega
            · simp [isPrefixC, hd]
              intro hbd
              exact absurd hbd.symm hd
      · simp [isPrefixC]
        intro hbc
        exact absurd hbc.symm hc

theorem lead_le_one_of_not_bb (t : List Char)
    (h : isPrefixC [btick, btick] t = false) : leadTicks t ≤ 1 := by
  cases t with
  | nil => simp [leadTicks]
  | cons c u =>
      by_cases hc : c = btick
      · subst hc
        rw [leadTicks_cons_b]
        cases u with
        | nil => simp [leadTicks]
        | cons d v =>
            by_cases hd : d = btick
            · subst hd
              simp [isPrefixC] at h
            · rw [leadTicks_cons_ne d v hd]
      · rw [leadTicks_cons_ne c u hc]
        omega

theorem lead_ge_three_of_bbb (s : List Char)
    (h : isPrefixC [btick, btick, btick] s = true) : 3 ≤ leadTicks s := by
  cases s with
  | nil => simp [isPrefixC] at h
  | cons c u =>
      cases u with
      | nil => simp [isPrefixC] at h
      | cons d v =>
          cases v with
          | nil => simp [isPrefixC] at h
          | cons e w =>
              simp only [isPrefixC, Bool.and_eq_true, beq_iff_eq] at h
              obtain ⟨hc, hd, he, _⟩ := h
              subst hc
              subst hd
              subst he
              rw [leadTicks_cons_b, leadTicks_cons_b, leadTicks_cons_b]
              omega

theorem dropNl_length_le (s : List Char) : (dropNl s).length ≤ s.length := by
  unfold dropNl
  split
  · cases s <;> simp
  · exact Nat.le_refl _

/-- Core invariant of the second `replace` pass: with enough fuel, the
output of `replaceFenceAux fenceTicks` never contains a triple backtick,
and its leading backtick run stays short when the input's was. -/
theorem replaceTicks_invariant (fuel : Nat) :
    ∀ s : List Char, s.length ≤ fuel →
      containsSub (replaceFenceAux fenceTicks fuel s) fenceTicks = false ∧
      (leadTicks s ≤ 1 → leadTicks (replaceFenceAux fenceTicks fuel s) ≤ 1) ∧
      (leadTicks s = 0 → leadTicks (replaceFenceAux fenceTicks fuel s) = 0) := by
  induction fuel with
  | zero =>
      intro s hs
      have : s = [] := List.length_eq_zero.mp (Nat.le_zero.mp hs)
      subst this
      refine ⟨by decide, fun _ => by simp [replaceFenceAux, leadTicks], fun _ => by simp [replaceFenceAux, leadTicks]⟩
  | succ fuel ih =>
      intro s hs
      cases s with
      | nil =>
          have hr : replaceFenceAux fenceTicks (fuel + 1) [] = [] := rfl
          rw [hr]
          refine ⟨by decide, fun _ => by simp [leadTicks], fun _ => by simp [leadTicks]⟩
      | cons c rest =>
          simp only [replaceFenceAux]
          by_cases hp : isPrefixC fenceTicks (c :: rest) = true
          · rw [if_pos hp]
            have hlen : (dropNl ((c :: rest).drop fenceTicks.length)).length ≤ fuel := by
              have h1 := dropNl_length_le ((c :: rest).drop fenceTicks.length)
              have h2 : ((c :: rest).drop fenceTicks.length).length ≤ rest.length := by
                simp [List.length_drop, fenceTicks]
              simp only [List.length_cons] at hs
              omega
            obtain ⟨ih1, ih2, ih3⟩ := ih _ hlen
            have hlead : 3 ≤ leadTicks (c :: rest) :=
              lead_ge_three_of_bbb _ (by rw [← fenceTicks_eq]; exact hp)
            exact ⟨ih1, fun hle => absurd hle (by omega), fun hle => by omega⟩
          · rw [if_neg hp]
            have hrest : rest.length ≤ fuel := by
              simp only [List.length_cons] at hs
              omega
            obtain ⟨ih1, ih2, ih3⟩ := ih rest hrest
            by_cases hc : c = btick
            · subst hc
              have hbb : isPrefixC [btick, btick] rest = false := by
                rw [fenceTicks_eq] at hp
                simp only [isPrefixC, beq_self_eq_true, Bool.true_and] at hp
                exact Bool.eq_false_iff.mpr hp
              have hlr : leadTicks rest ≤ 1 := lead_le_one_of_not_bb rest hbb
              have hlf : leadTicks (replaceFenceAux fenceTicks fuel rest) ≤ 1 :=
                ih2 hlr
              refine ⟨?_, ?_, ?_⟩
              · simp only [containsSub, Bool.or_eq_false_iff]
                refine ⟨?_, ih1⟩
                rw [fenceTicks_eq]
                simp only [isPrefixC, beq_self_eq_true, Bool.true_and]
                exact isPrefixC_bb_false_of_lead _ hlf
              · intro hle
                rw [leadTicks_cons_b] at hle
                have h0 : leadTicks rest = 0 := by omega
                rw [leadTicks_cons_b, ih3 h0]
              · intro hle
                rw [leadTicks_cons_b] at hle
                omega
            · refine ⟨?_, ?_, ?_⟩
              · simp only [containsSub, Bool.or_eq_false_iff]
                refine ⟨?_, ih1⟩
                rw [fenceTicks_eq]
                simp only [isPrefixC]
                have : (btick == c) = false := by
                  simp [beq_eq_false_iff_ne]
                  intro hbc
                  exact absurd hbc.symm hc
                rw [this]
                rfl
              · intro _
                rw [leadTicks_cons_ne c _ hc]
                omega
              · intro _
                rw [leadTicks_cons_ne c _ hc]

theorem dropWhile_suffix_eq (p : Char → Bool) :
    ∀ l : List Char, ∃ w, w ++ l.dropWhile p = l := by
  intro l
  induction l with
  | nil => exact ⟨[], rfl⟩
  | cons c t ih =>
      by_cases hc : p c = true
      · obtain ⟨w, hw⟩ := ih
        exact ⟨c :: w, by simp [List.dropWhile_cons, hc, hw]⟩
      · exact ⟨[], by simp [List.dropWhile_cons, hc]⟩

/-- If a pattern occurs in the trimmed string, it occurs in the string. -/
theorem contains_of_trim (u pat : List Char)
    (h : containsSub (jsTrimChars u) pat = true) : containsSub u pat = true := by
  unfold jsTrimChars at h
  obtain ⟨w1, hw1⟩ := dropWhile_suffix_eq jsWhitespace u
  obtain ⟨w2, hw2⟩ :=
    dropWhile_suffix_eq jsWhitespace (u.dropWhile jsWhitespace).reverse
  have hx : ((u.dropWhile jsWhitespace).reverse.dropWhile jsWhitespace).reverse ++
      w2.reverse = u.dropWhile jsWhitespace := by
    have := congrArg List.reverse hw2
    simpa [List.reverse_append] using this
  have h2 : containsSub (u.dropWhile jsWhitespace) pat = true := by
    rw [← hx]
    exact containsSub_append_l _ _ _ h
  rw [← hw1]
  exact containsSub_append_r _ _ _ h2

/-- C6, counterexample.  An interior bare fence is *not* preserved: the
`replace(/```\n?/g, '')` pass is global, so the fence in the middle of the
payload is removed as well. -/
theorem c6_counterexample :
    cleanupMermaid "graph TD\n```\nB --> C" = "graph TD\nB --> C" ∧
    containsSub "graph TD\n```\nB --> C".data fenceTicks = true ∧
    containsSub (cleanupMermaid "graph TD\n```\nB --> C").data fenceTicks = false := by
  refine ⟨by decide, by decide, by decide⟩

/-- C6, amended: the post-processing removes *every* occurrence of the
fence markers — leading, trailing and interior alike (``` ```mermaid ```
with an optional following newline, then bare ``` ``` `` with an optional
following newline) — and then trims surrounding whitespace; consequently
no triple backtick ever survives in the result, for any payload. -/
theorem c6_global_fence_removal (s : String) :
    containsSub (cleanupMermaid s).data fenceTicks = false := by
  cases hc : containsSub (cleanupMermaid s).data fenceTicks with
  | false => rfl
  | true =>
      have hc' : containsSub
          (jsTrimChars (replaceFence fenceTicks
            (replaceFence fenceMermaid s.data))) fenceTicks = true := hc
      have h2 := contains_of_trim _ _ hc'
      have h1 : containsSub
          (replaceFence fenceTicks (replaceFence fenceMermaid s.data))
          fenceTicks = false :=
        (replaceTicks_invariant (replaceFence fenceMermaid s.data).length
          (replaceFence fenceMermaid s.data) (Nat.le_refl _)).1
      rw [h2] at h1
      exact absurd h1 (by decide)

/-! ## C5 — idempotence of segmentation on content -/

theorem string_mk_data (s : String) : String.mk s.data = s := by
  cases s
  rfl

theorem string_mk_append (a b : List Char) :
    String.mk a ++ String.mk b = String.mk (a ++ b) := by
  rfl

/-- The per-section conditions under which re-segmenting the reconstruction
reproduces the sections: nonempty, trim-stable, line-terminator-free
heading; trim-stable, carriage-return-free body none of whose lines parses
as a heading. -/
def goodSection (s : Section) : Bool :=
  !s.heading.data.isEmpty &&
  (jsTrim s.heading == s.heading) &&
  s.heading.data.all (fun c => !lineTerm c) &&
  (jsTrim s.body == s.body) &&
  s.body.data.all (fun c => !(c == '\r')) &&
  (splitOnNl s.body.data).all (fun l => (execHeadingMatch l).isNone)

/-- All sections satisfy `goodSection`. -/
def goodSections (S : List Section) : Bool :=
  S.all goodSection

/-- The lines the reconstruction contributes: one heading line per section
followed by the lines of its body. -/
def linesOf (S : List Section) : List (List Char) :=
  (S.map (fun s => ('#' :: ' ' :: s.heading.data) :: splitOnNl s.body.data)).flatten

theorem length_dropWhile_le' (p : Char → Bool) (l : List Char) :
    (l.dropWhile p).length ≤ l.length := by
  induction l with
  | nil => exact Nat.le_refl _
  | cons c t ih =>
      by_cases hc : p c = true
      · simp only [List.dropWhile_cons, hc, if_true]
        exact Nat.le_trans ih (by simp)
      · simp [List.dropWhile_cons, hc]

theorem length_jsTrimChars_le (l : List Char) :
    (jsTrimChars l).length ≤ (l.dropWhile jsWhitespace).length := by
  unfold jsTrimChars
  rw [List.length_reverse]
  calc ((l.dropWhile jsWhitespace).reverse.dropWhile jsWhitespace).length
      ≤ (l.dropWhile jsWhitespace).reverse.length :=
        length_dropWhile_le' _ _
    _ = (l.dropWhile jsWhitespace).length := List.length_reverse _

theorem head_not_ws_of_trim_stable (c : Char) (t : List Char)
    (h : jsTrimChars (c :: t) = c :: t) : jsWhitespace c = false := by
  cases hc : jsWhitespace c with
  | false => rfl
  | true =>
      have h1 : jsTrimChars (c :: t) = jsTrimChars t := by
        unfold jsTrimChars
        rw [List.dropWhile_cons_of_pos hc]
      have h2 : (jsTrimChars t).length ≤ t.length :=
        Nat.le_trans (length_jsTrimChars_le t) (length_dropWhile_le' _ t)
      rw [h1] at h
      have := congrArg List.length h
      simp only [List.length_cons] at this
      omega

theorem any_lineTerm_false_of_all (l : List Char)
    (h : l.all (fun c => !lineTerm c) = true) : l.any lineTerm = false := by
  induction l with
  | nil => rfl
  | cons c t ih =>
      simp only [List.all_cons, Bool.and_eq_true, Bool.not_eq_true'] at h
      simp only [List.any_cons, Bool.or_eq_false_iff]
      exact ⟨h.1, ih h.2⟩

/-- The heading line `"# " ++ h` of a good heading re-parses to exactly the
heading text. -/
theorem execHeadingMatch_render (h : String)
    (hne : h.data.isEmpty = false)
    (hts : jsTrim h = h)
    (hlt : h.data.all (fun c => !lineTerm c) = true) :
    execHeadingMatch ('#' :: ' ' :: h.data) = some h.data := by
  obtain ⟨c, t, hct⟩ : ∃ c t, h.data = c :: t := by
    cases hd : h.data with
    | nil => rw [hd] at hne; simp at hne
    | cons c t => exact ⟨c, t, rfl⟩
  have hts' : jsTrimChars h.data = h.data := congrArg String.data hts
  have hcw : jsWhitespace c = false := by
    rw [hct] at hts'
    exact head_not_ws_of_trim_stable c t hts'
  have hcount : countHashes ('#' :: ' ' :: h.data) = 1 := by
    simp [countHashes]
  have hany : (c :: t).any lineTerm = false := by
    rw [← hct]
    exact any_lineTerm_false_of_all _ hlt
  have h1 : List.takeWhile jsWhitespace (' ' :: c :: t) = [' '] := by
    rw [List.takeWhile_cons_of_pos (by decide)]
    rw [List.takeWhile_cons_of_neg (by simp [hcw])]
  have h2 : List.dropWhile jsWhitespace (' ' :: c :: t) = c :: t := by
    rw [List.dropWhile_cons_of_pos (by decide)]
    exact List.dropWhile_cons_of_neg (by simp [hcw])
  unfold execHeadingMatch
  rw [hcount]
  simp only [List.drop_succ_cons, List.drop_zero, hct, h1, h2, hany]
  simp

theorem splitOnNlAux_cons_nl (acc rest : List Char) :
    splitOnNlAux acc ('\n' :: rest) = acc.reverse :: splitOnNlAux [] rest := by
  simp [splitOnNlAux]

theorem splitOnNlAux_cons_ne (acc : List Char) (c : Char) (rest : List Char)
    (h : ¬ c = '\n') :
    splitOnNlAux acc (c :: rest) = splitOnNlAux (c :: acc) rest := by
  simp [splitOnNlAux, h]

theorem splitLinesAux_cons_nl (acc rest : List Char)
    (h : acc.head? ≠ some '\r') :
    splitLinesAux acc ('\n' :: rest) = acc.reverse :: splitLinesAux [] rest := by
  simp [splitLinesAux, h]

theorem splitLinesAux_cons_ne (acc : List Char) (c : Char) (rest : List Char)
    (h : ¬ c = '\n') :
    splitLinesAux acc (c :: rest) = splitLinesAux (c :: acc) rest := by
  simp [splitLinesAux, h]

theorem splitLinesAux_eq_splitOnNlAux (s : List Char) :
    ∀ acc : List Char,
      (s.all (fun c => !(c == '\r')) = true) →
      (acc.all (fun c => !(c == '\r')) = true) →
      splitLinesAux acc s = splitOnNlAux acc s := by
  induction s with
  | nil => intro acc _ _; rfl
  | cons c rest ih =>
      intro acc hs hacc
      rw [List.all_cons, Bool.and_eq_true] at hs
      by_cases hc : c = '\n'
      · subst hc
        have hhead : acc.head? ≠ some '\r' := by
          cases acc with
          | nil => simp
          | cons a t =>
              rw [List.all_cons, Bool.and_eq_true] at hacc
              have ha : ¬ a = '\r' := by simpa using hacc.1
              simp [ha]
        rw [splitLinesAux_cons_nl acc rest hhead, splitOnNlAux_cons_nl acc rest,
          ih [] hs.2 rfl]
      · rw [splitLinesAux_cons_ne acc c rest hc, splitOnNlAux_cons_ne acc c rest hc]
        apply ih (c :: acc) hs.2
        rw [List.all_cons, Bool.and_eq_true]
        exact ⟨hs.1, hacc⟩

theorem splitOnNlAux_append_nl (b a : List Char) :
    ∀ acc : List Char,
      splitOnNlAux acc (a ++ '\n' :: b) = splitOnNlAux acc a ++ splitOnNl b := by
  induction a with
  | nil =>
      intro acc
      rw [List.nil_append, splitOnNlAux_cons_nl]
      rfl
  | cons c rest ih =>
      intro acc
      rw [List.cons_append]
      by_cases hc : c = '\n'
      · subst hc
        rw [splitOnNlAux_cons_nl, splitOnNlAux_cons_nl, ih [], List.cons_append]
      · rw [splitOnNlAux_cons_ne _ c _ hc, splitOnNlAux_cons_ne acc c rest hc, ih]

theorem splitOnNlAux_no_nl (s : List Char) :
    ∀ acc : List Char, (s.all (fun c => !(c == '\n')) = true) →
      splitOnNlAux acc s = [acc.reverse ++ s] := by
  induction s with
  | nil => intro acc _; simp [splitOnNlAux]
  | cons c rest ih =>
      intro acc hs
      rw [List.all_cons, Bool.and_eq_true] at hs
      have hc : ¬ c = '\n' := by simpa using hs.1
      rw [splitOnNlAux_cons_ne acc c rest hc, ih (c :: acc) hs.2]
      simp

/-- Concatenation of the split pieces, each with its newline re-appended — the
shape in which a section body is re-accumulated by the line loop. -/
def joinNlL (pieces : List (List Char)) : List Char :=
  (pieces.map (fun l => l ++ ['\n'])).flatten

theorem joinNlL_cons (x : List Char) (xs : List (List Char)) :
    joinNlL (x :: xs) = (x ++ ['\n']) ++ joinNlL xs := by
  simp [joinNlL]

theorem joinNlL_splitOnNlAux (s : List Char) :
    ∀ acc : List Char,
      joinNlL (splitOnNlAux acc s) = acc.reverse ++ s ++ ['\n'] := by
  induction s with
  | nil => intro acc; simp [splitOnNlAux, joinNlL]
  | cons c rest ih =>
      intro acc
      by_cases hc : c = '\n'
      · subst hc
        rw [splitOnNlAux_cons_nl, joinNlL_cons, ih []]
        simp
      · rw [splitOnNlAux_cons_ne acc c rest hc, ih (c :: acc)]
        simp

theorem joinNlL_splitOnNl (s : List Char) :
    joinNlL (splitOnNl s) = s ++ ['\n'] := by
  have h := joinNlL_splitOnNlAux s []
  simpa [splitOnNl] using h

theorem jsTrimChars_append_nl (s : List Char) :
    jsTrimChars (s ++ ['\n']) = jsTrimChars s := by
  unfold jsTrimChars
  rw [List.dropWhile_append]
  by_cases he : (s.dropWhile jsWhitespace).isEmpty = true
  · rw [if_pos he]
    have h1 : List.dropWhile jsWhitespace ['\n'] = [] := by decide
    rw [h1]
    have h2 : s.dropWhile jsWhitespace = [] := by
      cases hd : s.dropWhile jsWhitespace with
      | nil => rfl
      | cons a t => rw [hd] at he; simp at he
    rw [h2]
  · rw [if_neg he]
    rw [List.reverse_append]
    have h3 : List.reverse ['\n'] = ['\n'] := rfl
    rw [h3, List.singleton_append]
    rw [List.dropWhile_cons_of_pos (by decide)]

theorem jsTrim_append_nl (s : String) : jsTrim (s ++ "\n") = jsTrim s := by
  apply string_data_eq
  show jsTrimChars (s ++ "\n").data = jsTrimChars s.data
  rw [string_data_append]
  exact jsTrimChars_append_nl s.data

theorem string_append_empty (s : String) : s ++ "" = s := by
  apply string_data_eq
  rw [string_data_append]
  simp

theorem string_empty_append (s : String) : "" ++ s = s := by
  apply string_data_eq
  rw [string_data_append]
  simp

/-- The reconstruction, at the character level. -/
def renderData (S : List Section) : List Char :=
  (S.map (fun s =>
    '#' :: ' ' :: (s.heading.data ++ '\n' :: (s.body.data ++ ['\n'])))).flatten

theorem data_foldl_append (L : List String) :
    ∀ a : String,
      (L.foldl (fun r s => r ++ s) a).data = a.data ++ (L.map String.data).flatten := by
  induction L with
  | nil => intro a; simp
  | cons x xs ih =>
      intro a
      simp only [List.foldl_cons, List.map_cons, List.flatten_cons]
      rw [ih (a ++ x), string_data_append, List.append_assoc]

theorem string_data_join (L : List String) :
    (String.join L).data = (L.map String.data).flatten := by
  show (L.foldl (fun r s => r ++ s) "").data = _
  rw [data_foldl_append L ""]
  rfl

theorem render_one_data (s : Section) :
    ("# " ++ s.heading ++ "\n" ++ s.body ++ "\n").data =
      '#' :: ' ' :: (s.heading.data ++ '\n' :: (s.body.data ++ ['\n'])) := by
  rw [string_data_append, string_data_append, string_data_append,
    string_data_append]
  show (((['#', ' '] ++ s.heading.data) ++ ['\n']) ++ s.body.data) ++ ['\n'] = _
  simp [List.append_assoc]

theorem renderSections_data (S : List Section) :
    (renderSections S).data = renderData S := by
  unfold renderSections renderData
  rw [string_data_join, List.map_map]
  have hf : (String.data ∘ fun s => "# " ++ s.heading ++ "\n" ++ s.body ++ "\n") =
      (fun s : Section =>
        '#' :: ' ' :: (s.heading.data ++ '\n' :: (s.body.data ++ ['\n']))) := by
    funext s
    exact render_one_data s
  rw [hf]

theorem all_ne_of_all_not_lineTerm (l : List Char) (c0 : Char)
    (hc0 : lineTerm c0 = true)
    (h : l.all (fun c => !lineTerm c) = true) :
    l.all (fun c => !(c == c0)) = true := by
  rw [List.all_eq_true] at h ⊢
  intro c hc
  have hlt := h c hc
  cases hbc : (c == c0) with
  | false => rfl
  | true =>
      have : c = c0 := by simpa using hbc
      subst this
      rw [hc0] at hlt
      simp at hlt

theorem renderData_all_no_cr (S : List Section)
    (hg : goodSections S = true) :
    (renderData S).all (fun c => !(c == '\r')) = true := by
  induction S with
  | nil => rfl
  | cons s S' ih =>
      rw [goodSections, List.all_cons, Bool.and_eq_true] at hg
      obtain ⟨hgs, hg'⟩ := hg
      rw [goodSection] at hgs
      simp only [Bool.and_eq_true] at hgs
      have hhead : s.heading.data.all (fun c => !(c == '\r')) = true :=
        all_ne_of_all_not_lineTerm _ '\r' (by decide) hgs.1.1.1.2
      have hbody : s.body.data.all (fun c => !(c == '\r')) = true := hgs.1.2
      show ((('#' :: ' ' :: (s.heading.data ++ '\n' :: (s.body.data ++ ['\n']))) ++
          renderData S').all (fun c => !(c == '\r'))) = true
      rw [List.all_append]
      simp only [List.all_cons, List.all_append, Bool.and_eq_true]
      refine ⟨⟨by decide, by decide, hhead, by decide, hbody, by decide⟩,
        ih hg'⟩

theorem splitOnNl_renderData (S : List Section)
    (hg : goodSections S = true) :
    splitOnNl (renderData S) = linesOf S ++ [[]] := by
  induction S with
  | nil => rfl
  | cons s S' ih =>
      rw [goodSections, List.all_cons, Bool.and_eq_true] at hg
      obtain ⟨hgs, hg'⟩ := hg
      rw [goodSection] at hgs
      simp only [Bool.and_eq_true] at hgs
      have hheadnl : s.heading.data.all (fun c => !(c == '\n')) = true :=
        all_ne_of_all_not_lineTerm _ '\n' (by decide) hgs.1.1.1.2
      have hshape : renderData (s :: S') =
          ('#' :: ' ' :: s.heading.data) ++
            '\n' :: (s.body.data ++ '\n' :: renderData S') := by
        show ('#' :: ' ' :: (s.heading.data ++ '\n' :: (s.body.data ++ ['\n']))) ++
            renderData S' = _
        simp [List.append_assoc]
      rw [hshape]
      show splitOnNlAux [] _ = _
      rw [splitOnNlAux_append_nl]
      have hA : splitOnNlAux [] ('#' :: ' ' :: s.heading.data) =
          [('#' :: ' ' :: s.heading.data)] := by
        rw [splitOnNlAux_no_nl]
        · rfl
        · simp only [List.all_cons, Bool.and_eq_true]
          exact ⟨by decide, by decide, hheadnl⟩
      rw [hA]
      show _ = linesOf (s :: S') ++ [[]]
      have hB : splitOnNl (s.body.data ++ '\n' :: renderData S') =
          splitOnNl s.body.data ++ splitOnNl (renderData S') := by
        show splitOnNlAux [] _ = _
        rw [splitOnNlAux_append_nl]
        rfl
      rw [hB, ih hg']
      show ('#' :: ' ' :: s.heading.data) ::
          (splitOnNl s.body.data ++ (linesOf S' ++ [[]])) = _
      simp [linesOf, List.append_assoc]

theorem processMdLine_body (now : Nat) (secs : List Section) (cur : Section)
    (line : List Char) (h : execHeadingMatch line = none) :
    processMdLine now (secs, some cur) line =
      (secs, some ⟨cur.id, cur.heading, cur.body ++ String.mk line ++ "\n",
        cur.code, cur.mermaidCode⟩) := by
  simp [processMdLine, h]

theorem processMdLine_heading (now : Nat) (st : List Section × Option Section)
    (line captured : List Char) (h : execHeadingMatch line = some captured) :
    processMdLine now st line =
      (pushCurrent st.1 st.2,
        some ⟨toString (pushCurrent st.1 st.2).length ++ "-" ++ toString now,
          jsTrim (String.mk captured), "", none, none⟩) := by
  simp [processMdLine, h]

theorem foldl_body_lines (now : Nat) (ls : List (List Char)) :
    ∀ (secs : List Section) (cur : Section),
      (ls.all (fun l => (execHeadingMatch l).isNone) = true) →
      ls.foldl (processMdLine now) (secs, some cur) =
        (secs, some ⟨cur.id, cur.heading, cur.body ++ String.mk (joinNlL ls),
          cur.code, cur.mermaidCode⟩) := by
  induction ls with
  | nil =>
      intro secs cur _
      have hb : cur.body ++ String.mk (joinNlL []) = cur.body := by
        show cur.body ++ "" = cur.body
        exact string_append_empty _
      rw [List.foldl_nil, hb]
  | cons l ls' ih =>
      intro secs cur hall
      rw [List.all_cons, Bool.and_eq_true] at hall
      have hnone : execHeadingMatch l = none :=
        Option.isNone_iff_eq_none.mp hall.1
      rw [List.foldl_cons, processMdLine_body now secs cur l hnone,
        ih secs _ hall.2]
      have hb : (cur.body ++ String.mk l ++ "\n") ++ String.mk (joinNlL ls') =
          cur.body ++ String.mk (joinNlL (l :: ls')) := by
        apply string_data_eq
        rw [string_data_append, string_data_append, string_data_append,
          string_data_append, joinNlL_cons]
        show ((cur.body.data ++ l) ++ ['\n']) ++ joinNlL ls' =
          cur.body.data ++ ((l ++ ['\n']) ++ joinNlL ls')
        simp [List.append_assoc]
      rw [hb]

theorem seg_fold_aux (now : Nat) (S : List Section) :
    goodSections S = true →
    ∀ (secs : List Section) (cur : Section),
      (pushCurrent
          (((linesOf S ++ [[]]).foldl (processMdLine now) (secs, some cur)).1)
          (((linesOf S ++ [[]]).foldl (processMdLine now) (secs, some cur)).2)).map
          contentOf =
        secs.map contentOf ++ [(cur.heading, jsTrim cur.body)] ++
          S.map contentOf := by
  induction S with
  | nil =>
      intro _ secs cur
      have hmt : execHeadingMatch [] = none := by decide
      show (pushCurrent
          (([([] : List Char)].foldl (processMdLine now) (secs, some cur)).1)
          (([([] : List Char)].foldl (processMdLine now) (secs, some cur)).2)).map
          contentOf = _
      rw [List.foldl_cons, List.foldl_nil,
        processMdLine_body now secs cur [] hmt]
      show (pushCurrent secs (some _)).map contentOf = _
      rw [pushCurrent]
      rw [List.map_append]
      have hb : jsTrim (cur.body ++ String.mk [] ++ "\n") = jsTrim cur.body := by
        rw [show cur.body ++ String.mk [] = cur.body from string_append_empty _]
        exact jsTrim_append_nl _
      simp [contentOf, hb, jsTrim_append_nl]
  | cons s S' ih =>
      intro hg secs cur
      rw [goodSections, List.all_cons, Bool.and_eq_true] at hg
      obtain ⟨hgs, hg'⟩ := hg
      have hg'' : goodSections S' = true := hg'
      rw [goodSection] at hgs
      simp only [Bool.and_eq_true] at hgs
      obtain ⟨⟨⟨⟨⟨hne, hts⟩, hlt⟩, hbts⟩, hbcr⟩, hbnh⟩ := hgs
      have hne' : s.heading.data.isEmpty = false := by
        cases hx : s.heading.data.isEmpty
        · rfl
        · rw [hx] at hne; simp at hne
      have hts' : jsTrim s.heading = s.heading := by
        exact eq_of_beq hts
      have hmatch : execHeadingMatch ('#' :: ' ' :: s.heading.data) =
          some s.heading.data :=
        execHeadingMatch_render s.heading hne' hts' hlt
      have hlines : linesOf (s :: S') ++ [[]] =
          ('#' :: ' ' :: s.heading.data) ::
            (splitOnNl s.body.data ++ (linesOf S' ++ [[]])) := by
        simp [linesOf, List.append_assoc]
      rw [hlines, List.foldl_cons,
        processMdLine_heading now (secs, some cur) _ _ hmatch]
      rw [List.foldl_append]
      rw [foldl_body_lines now (splitOnNl s.body.data) _ _ hbnh]
      have hheadeq : jsTrim (String.mk s.heading.data) = s.heading := by
        rw [string_mk_data]
        exact hts'
      have hbodyeq : ("" : String) ++ String.mk (joinNlL (splitOnNl s.body.data)) =
          s.body ++ "\n" := by
        rw [string_empty_append, joinNlL_splitOnNl]
        rw [← string_mk_append, string_mk_data]
      rw [show pushCurrent (secs, some cur).1 (secs, some cur).2 =
          secs ++ [⟨cur.id, cur.heading, jsTrim cur.body, cur.code,
            cur.mermaidCode⟩] from rfl]
      rw [hheadeq, hbodyeq]
      rw [ih hg'' _ _]
      have hbtrim : jsTrim (s.body ++ "\n") = s.body := by
        rw [jsTrim_append_nl]
        exact eq_of_beq hbts
      rw [hbtrim, List.map_append]
      simp [contentOf, List.append_assoc]

/-- C5, counterexample.  `segment` is *not* idempotent on content: for the
input `"# A\n  # B"` the single returned section has body `"# B"` (the
leading whitespace was trimmed away), and re-segmenting the reconstruction
re-parses that body line as a heading, yielding two sections instead of
one. -/
theorem c5_counterexample :
    (splitMarkdownIntoSections 0 "# A\n  # B").map contentOf = [("A", "# B")] ∧
    (splitMarkdownIntoSections 0
        (renderSections (splitMarkdownIntoSections 0 "# A\n  # B"))).map
        contentOf = [("A", ""), ("B", "")] ∧
    ([("A", ""), ("B", "")] : List (String × String)) ≠ [("A", "# B")] := by
  refine ⟨by decide, by decide, by decide⟩

/-- C5, amended: re-segmenting the reconstruction reproduces the sections'
heading/body values (identifiers excepted) for every *nonempty* section
list whose headings are nonempty, trim-stable and line-terminator-free and
whose bodies are trim-stable, carriage-return-free and contain no line that
parses as a heading.  (The counterexample shows the unrestricted claim is
false: a trimmed body may expose a heading-shaped line, and rule C10's
empty headings cannot be re-emitted.) -/
theorem c5_render_roundtrip (now : Nat) (S : List Section) (hne : S ≠ [])
    (hg : goodSections S = true) :
    (splitMarkdownIntoSections now (renderSections S)).map contentOf =
      S.map contentOf := by
  cases S with
  | nil => exact absurd rfl hne
  | cons s S' =>
      have hglocal := hg
      rw [goodSections, List.all_cons, Bool.and_eq_true] at hglocal
      obtain ⟨hgs, hg'⟩ := hglocal
      have hg'' : goodSections S' = true := hg'
      rw [goodSection] at hgs
      simp only [Bool.and_eq_true] at hgs
      obtain ⟨⟨⟨⟨⟨hne2, hts⟩, hlt⟩, hbts⟩, hbcr⟩, hbnh⟩ := hgs
      have hne' : s.heading.data.isEmpty = false := by
        cases hx : s.heading.data.isEmpty
        · rfl
        · rw [hx] at hne2; simp at hne2
      have hts' : jsTrim s.heading = s.heading := eq_of_beq hts
      have hmatch : execHeadingMatch ('#' :: ' ' :: s.heading.data) =
          some s.heading.data :=
        execHeadingMatch_render s.heading hne' hts' hlt
      have hlines : splitLines (renderSections (s :: S')) =
          linesOf (s :: S') ++ [[]] := by
        show splitLinesAux [] (renderSections (s :: S')).data = _
        rw [renderSections_data]
        rw [splitLinesAux_eq_splitOnNlAux _ [] (renderData_all_no_cr _ hg) rfl]
        exact splitOnNl_renderData _ hg
      have hlines2 : linesOf (s :: S') ++ [[]] =
          ('#' :: ' ' :: s.heading.data) ::
            (splitOnNl s.body.data ++ (linesOf S' ++ [[]])) := by
        simp [linesOf, List.append_assoc]
      show (pushCurrent
          (((splitLines (renderSections (s :: S'))).foldl (processMdLine now)
            ([], none)).1)
          (((splitLines (renderSections (s :: S'))).foldl (processMdLine now)
            ([], none)).2)).map contentOf = _
      rw [hlines, hlines2, List.foldl_cons,
        processMdLine_heading now ([], none) _ _ hmatch]
      rw [List.foldl_append]
      rw [foldl_body_lines now (splitOnNl s.body.data) _ _ hbnh]
      have hheadeq : jsTrim (String.mk s.heading.data) = s.heading := by
        rw [string_mk_data]
        exact hts'
      have hbodyeq : ("" : String) ++ String.mk (joinNlL (splitOnNl s.body.data)) =
          s.body ++ "\n" := by
        rw [string_empty_append, joinNlL_splitOnNl]
        rw [← string_mk_append, string_mk_data]
      rw [hheadeq, hbodyeq]
      rw [show pushCurrent ((([] : List Section), (none : Option Section))).1
          ((([] : List Section), (none : Option Section))).2 = [] from rfl]
      rw [seg_fold_aux now S' hg'' _ _]
      have hbtrim : jsTrim (s.body ++ "\n") = s.body := by
        rw [jsTrim_append_nl]
        exact eq_of_beq hbts
      rw [hbtrim]
      simp [contentOf]

/-- C5, witness for the amended theorem at a concrete section list. -/
theorem c5_render_roundtrip_witness :
    ([⟨"id0", "A", "hello", none, none⟩] : List Section) ≠ [] ∧
    goodSections [⟨"id0", "A", "hello", none, none⟩] = true ∧
    (splitMarkdownIntoSections 7
        (renderSections [⟨"id0", "A", "hello", none, none⟩])).map contentOf =
      ([⟨"id0", "A", "hello", none, none⟩] : List Section).map contentOf :=
  ⟨by decide, by decide,
   c5_render_roundtrip 7 [⟨"id0", "A", "hello", none, none⟩] (by decide)
     (by decide)⟩

end DRA











example : DRA.srcDoc (some "") (some "<p>hi</p>") = "<p>hi</p>" := by decide
set_option maxRecDepth 8000 in
example : DRA.srcDoc none none = DRA.defaultBlankSnippet := by decide
example : DRA.sandboxDeniesHostAccess DRA.previewSandboxTokens = false := by decide


example : DRA.sentenceSplit "One two. Three!" = ["One two", " Three", ""] := by decide
example : DRA.workflowSteps "The workflow begins now. first we configure the build system." = ["The workflow begins ...", "Initial Setup"] := by decide
set_option maxRecDepth 8000 in
example : DRA.heuristicMermaid "T" "workflow" = "flowchart TD\n    A[T]\n    B0 --> C[Complete]\n    \n    style A fill:#e1f5fe,stroke:#0ea5e9,stroke-width:3px\n    style C fill:#c8e6c9,stroke:#22c55e,stroke-width:3px\n    style B1 fill:#fef3c7,stroke:#f59e0b,stroke-width:2px\n    style B2 fill:#fef3c7,stroke:#f59e0b,stroke-width:2px\n    style B3 fill:#fef3c7,stroke:#f59e0b,stroke-width:2px\n    style B4 fill:#fef3c7,stroke:#f59e0b,stroke-width:2px" := by decide


example : (DRA.splitMarkdownIntoSections 0 "intro text\n# H1\nbody").map DRA.contentOf = [("Introduction", "intro text"), ("H1", "body")] := by decide
example : (DRA.splitMarkdownIntoSections 0 "# A\n# B").map DRA.contentOf = [("A", ""), ("B", "")] := by decide
example : (DRA.splitMarkdownIntoSections 0 "").map DRA.contentOf = [("Introduction", "")] := by decide
example : DRA.splitMarkdownIntoSections 5 "# T\nx" = [⟨"0-5", "T", "x", none, none⟩] := by decide
example : DRA.execHeadingMatch "#  ".data = some [' '] := by decide
example : DRA.execHeadingMatch "# ".data = none := by decide
example : DRA.execHeadingMatch "####### x".data = none := by decide
example : DRA.execHeadingMatch "## x ".data = some "x ".data := by decide
example : DRA.execHeadingMatch "# a\rb".data = none := by decide
example : (DRA.splitMarkdownIntoSections 0 "# A\n  # B").map DRA.contentOf = [("A", "# B")] := by decide
example : (DRA.splitMarkdownIntoSections 0 (DRA.renderSections (DRA.splitMarkdownIntoSections 0 "# A\n  # B"))).map DRA.contentOf = [("A", ""), ("B", "")] := by decide


example : ((DRA.jsonParse "\x7b\"a\":1,\"a\":\"x\"\x7d".data).bind (fun j => DRA.getField j "a")).map DRA.jsToStr = some "x" := by decide
example : ((DRA.jsonParse "\x7b\"a\":1\x7d".data).bind (fun j => DRA.getField j "a")).map DRA.jsToStr = some "1" := by decide
example : (DRA.jsonParse "\x7b\"type\":\"te".data).isNone = true := by decide
example : (DRA.jsonParse " [1, true, null, \"x\"] ".data).isSome = true := by decide
example : (DRA.jsonParse "[1,]".data).isNone = true := by decide
example : String.mk (DRA.processLine "A".data "0:\x7b\"type\":\"text-delta\",\"textDelta\":\"Hi\"\x7d".data) = "AHi" := by decide
example : String.mk (DRA.processLine "A".data "1:\x7b\"type\":\"text-delta\",\"textDelta\":\"Hi\"\x7d".data) = "A" := by decide
example : DRA.decodeStream ["0:\x7b\"type\":\"text-delta\",\"textDelta\":\"Hi\"\x7d\n0:\x7b\"type\":\"te", "xt-delta\",\"textDelta\":\" there\"\x7d\n"] = "Hi" := by decide
example : DRA.cleanupMermaid "```mermaid\ngraph TD\n```" = "graph TD" := by decide
example : DRA.cleanupMermaid "a\n```\nb" = "a\nb" := by decide



example : (DRA.parseStrAux "ab\"x".data).map (fun p => (String.mk p.1, String.mk p.2)) = some ("ab", "x") := by decide
example : (DRA.parseNumber "-12.5e+3,x".data).map (fun p => (String.mk p.1, String.mk p.2)) = some ("-12.5e+3", ",x") := by decide
example : DRA.parseNumber "01".data = some ("0".data, "1".data) := by decide
example : DRA.parseNumber ".5".data = none := by decide


-- sanity examples (definitions only exercise concrete values)
example : DRA.jsTrim "  ab \n" = "ab" := by decide
example : DRA.splitOnNl "a\nb".data = ["a".data, "b".data] := by decide
example : DRA.splitOnNl "".data = [[]] := by decide
example : DRA.splitLines "a\r\nb\rc" = ["a".data, "b\rc".data] := by decide
example : DRA.containsSub "hello".data "ell".data = true := by decide
example : DRA.containsSub "hello".data "elo".data = false := by decide
